import Mathlib

/-!
Verification of `examples/sentiment-analysis.py`: a keyword-based sentiment
scorer (`analyze_sentiment`) and the surrounding enrichment pipeline (`run`)
that annotates each bookmark of a JSON document with a sentiment label and
score and appends an aggregate tally.

Modelling conventions:
* Python floats are modelled exactly.  The only float operations the script
  performs are one division of small integers (`(p - n) / (p + n)`),
  comparisons with the literals `0.2` / `-0.2`, and `round(·, 2)`.  The
  division is modelled by `toDoubleF`, which returns the IEEE-754 binary64
  value nearest the exact quotient (round-to-nearest, ties-to-even) as an
  integer pair `(mantissa, power-of-two denominator)`; comparisons are done
  by cross-multiplication and `round(·, 2)` by `rheInt`, CPython's
  correctly-rounded ties-to-even decimal rounding.  The returned score is
  the exact multiple of 1/100 that the rounded float denotes.
* Python strings are Lean `String`s; `str.lower()` and the regex `\b\w+\b`
  are modelled over the ASCII range, which covers the whole lexicon.
* JSON documents are a `Json` inductive; Python `dict`s are ordered
  association lists (parser output has unique keys, and the script only
  extends maps through `objSet`, which preserves key uniqueness).
-/

set_option maxRecDepth 100000

namespace SentimentAnalysis

/-- Two to the n-th power by structural recursion (reduces well inside the
kernel). -/
def pow2 : ℕ → ℕ
  | 0 => 1
  | n + 1 => 2 * pow2 n

/-- Round `x / d` (for `d > 0`) to the nearest integer, ties to even — the
rounding of IEEE-754 round-to-nearest and of CPython's `round`. -/
def rheInt (x d : ℤ) : ℤ :=
  if 2 * (x - x / d * d) < d then x / d
  else if d < 2 * (x - x / d * d) then x / d + 1
  else if x / d % 2 = 0 then x / d else x / d + 1

/-- The binary64 value nearest the rational `a / b` (`b ≠ 0`), returned as
`(num, den)` with `den` a power of two: round the value to 53 significant
bits, ties to even.  Valid for the normal range, which covers every value
the script produces. -/
def toDoubleF (a : ℤ) (b : ℕ) : ℤ × ℕ :=
  if a = 0 then (0, 1)
  else
    let s : ℤ := 52 - Int.log 2 ((a.natAbs : ℚ) / (b : ℚ))
    if 0 ≤ s then
      let m := rheInt ((a.natAbs : ℤ) * (pow2 s.toNat : ℤ)) b
      (if a < 0 then -m else m, pow2 s.toNat)
    else
      let m := rheInt (a.natAbs : ℤ) ((b : ℤ) * (pow2 (-s).toNat : ℤ))
      ((if a < 0 then -m else m) * (pow2 (-s).toNat : ℤ), 1)

/-- The rational value denoted by a `toDoubleF` fraction. -/
def fracVal (x : ℤ × ℕ) : ℚ := (x.1 : ℚ) / (x.2 : ℚ)

/-- Greater-than on fractions with positive denominators, by
cross-multiplication. -/
def fgt (x y : ℤ × ℕ) : Bool := y.1 * (x.2 : ℤ) < x.1 * (y.2 : ℤ)

/-- Less-than on fractions with positive denominators, by
cross-multiplication. -/
def flt (x y : ℤ × ℕ) : Bool := x.1 * (y.2 : ℤ) < y.1 * (x.2 : ℤ)

/-- The binary64 value of the literal `0.2`, i.e. `3602879701896397 / 2^54`
(returned by `toDoubleF` as the unreduced pair `(7205759403792794, 2^55)`);
the literal `-0.2` is its exact negation. -/
def dbl02 : ℤ × ℕ := toDoubleF 1 5

/-- The `POSITIVE_WORDS` lexicon from the script. -/
def POSITIVE_WORDS : List String :=
  ["good", "great", "excellent", "amazing", "awesome", "fantastic", "wonderful",
   "love", "best", "perfect", "brilliant", "outstanding", "superb", "incredible",
   "helpful", "useful", "valuable", "important", "interesting", "insightful"]

/-- The `NEGATIVE_WORDS` lexicon from the script. -/
def NEGATIVE_WORDS : List String :=
  ["bad", "terrible", "awful", "horrible", "worst", "poor", "disappointing",
   "hate", "useless", "broken", "failed", "error", "problem", "issue", "bug",
   "difficult", "confusing", "complicated", "frustrating", "annoying"]

/-- A word character of the regex `\w`: letter, digit or underscore
(ASCII model; the lexicon is pure ASCII). -/
def isWordChar (c : Char) : Bool := c.isAlphanum || c == '_'

/-- Splitter behind `re.findall(r'\b\w+\b', text)`: `cur` is the reversed
run of word characters read so far. -/
def tokenizeAux : List Char → List Char → List (List Char)
  | [], cur => if cur = [] then [] else [cur.reverse]
  | c :: rest, cur =>
    if isWordChar c then tokenizeAux rest (c :: cur)
    else if cur = [] then tokenizeAux rest []
    else cur.reverse :: tokenizeAux rest []

/-- Model of `re.findall(r'\b\w+\b', text)`: the maximal runs of word
characters, in order of occurrence. -/
def tokenize (l : List Char) : List (List Char) := tokenizeAux l []

/-- The token list of `text` after `text.lower()`, as strings. -/
def tokensOf (text : String) : List String :=
  (tokenize (text.data.map Char.toLower)).map (fun w => String.mk w)

/-- Model of `positive_count`: occurrences of positive lexicon words among
the tokens. -/
def posCount (text : String) : ℕ :=
  ((tokensOf text).filter (fun w => POSITIVE_WORDS.contains w)).length

/-- Model of `negative_count`: occurrences of negative lexicon words among
the tokens. -/
def negCount (text : String) : ℕ :=
  ((tokensOf text).filter (fun w => NEGATIVE_WORDS.contains w)).length

/-- The exact value of
`(positive_count - negative_count) / total_sentiment_words` (the script
computes its binary64 rounding). -/
def rawScore (text : String) : ℚ :=
  ((posCount text : ℚ) - (negCount text : ℚ)) /
    ((posCount text : ℚ) + (negCount text : ℚ))

/-- The binary64 score `(p - n) / (p + n)` of the script, as a fraction. -/
def scoreF (text : String) : ℤ × ℕ :=
  toDoubleF ((posCount text : ℤ) - (negCount text : ℤ)) (posCount text + negCount text)

/-- The binary64 score of the script, as a rational. -/
def scoreDbl (text : String) : ℚ := fracVal (scoreF text)

/-- Model of `analyze_sentiment`: label and rounded score of a text.
Testing `if not text` on a string is the emptiness test.  The label
thresholds compare the *unrounded* binary64 score with the doubles `0.2` and
`-0.2`; only the returned score is rounded, to 2 decimal places. -/
def analyze_sentiment (text : String) : String × ℚ :=
  if text = "" then ("neutral", 0)
  else if posCount text + negCount text = 0 then ("neutral", 0)
  else
    let score := scoreF text
    (if fgt score dbl02 then "positive"
     else if flt score (-dbl02.1, dbl02.2) then "negative"
     else "neutral",
     (rheInt (score.1 * 100) (score.2 : ℤ) : ℚ) / 100)

/-- Text with 59 positive and 39 negative lexicon hits: raw score 10/49. -/
def exC1 : String := "good good good good good good good good good good good good good good good good good good good good good good good good good good good good good good good good good good good good good good good good good good good good good good good good good good good good good good good good good good good bad bad bad bad bad bad bad bad bad bad bad bad bad bad bad bad bad bad bad bad bad bad bad bad bad bad bad bad bad bad bad bad bad bad bad bad bad bad bad"

/-- Text with 41 positive and 39 negative lexicon hits: raw score
1/40 = 0.025. -/
def exC7 : String := "good good good good good good good good good good good good good good good good good good good good good good good good good good good good good good good good good good good good good good good good good bad bad bad bad bad bad bad bad bad bad bad bad bad bad bad bad bad bad bad bad bad bad bad bad bad bad bad bad bad bad bad bad bad bad bad bad bad bad bad"

/-- JSON values; objects are ordered association lists, like Python dicts. -/
inductive Json where
  | null
  | bool (b : Bool)
  | num (q : ℚ)
  | str (s : String)
  | arr (elems : List Json)
  | obj (fields : List (String × Json))

/-- First value stored under key `k`. -/
def lookupField : List (String × Json) → String → Option Json
  | [], _ => none
  | (k', v) :: rest, k => if k' = k then some v else lookupField rest k

/-- Python `d.get(k, default)`. -/
def getD (fs : List (String × Json)) (k : String) (d : Json) : Json :=
  (lookupField fs k).getD d

/-- Model of `{**d, k: v}`: replace the value at `k` in place if the key is
present, otherwise append the pair at the end (dict insertion order). -/
def objSet : List (String × Json) → String → Json → List (String × Json)
  | [], k, v => [(k, v)]
  | (k', v') :: rest, k, v =>
    if k' = k then (k, v) :: rest else (k', v') :: objSet rest k v

/-- Lookup on a `Json` value that is an object. -/
def Json.lookup (j : Json) (k : String) : Option Json :=
  match j with
  | .obj fs => lookupField fs k
  | _ => none

/-- Python truthiness of a JSON value (`if not text`). -/
def truthy : Json → Bool
  | .null => false
  | .bool b => b
  | .num q => if q = 0 then false else true
  | .str s => if s = "" then false else true
  | .arr xs => !xs.isEmpty
  | .obj fs => !fs.isEmpty

/-- The scorer applied to the JSON value stored under `text`: any falsy
value short-circuits to `(neutral, 0.0)` via `if not text`; a truthy string
is scored; any other truthy value raises `AttributeError` at
`text.lower()`. -/
def analyzeJson (text : Json) : Except String (String × ℚ) :=
  if truthy text = false then .ok ("neutral", 0)
  else
    match text with
    | .str s => .ok (analyze_sentiment s)
    | _ => .error "AttributeError: no attribute lower"

/-- Enrichment of one bookmark: score `bookmark.get('text', '')`, then build
`{**bookmark, 'customAnalysis': {**bookmark.get('customAnalysis', {}),
'sentiment': label, 'sentimentScore': score}}`.  Also returns the label for
the tally.  A non-dict bookmark raises `AttributeError` at `.get`; a
non-dict `customAnalysis` raises `TypeError` at the mapping unpack. -/
def enrichBookmark (bm : Json) : Except String (Json × String) :=
  match bm with
  | .obj fs =>
    match analyzeJson (getD fs "text" (.str "")) with
    | .error e => .error e
    | .ok (sentiment, score) =>
      match getD fs "customAnalysis" (.obj []) with
      | .obj ca =>
        .ok (.obj (objSet fs "customAnalysis"
              (.obj (objSet (objSet ca "sentiment" (.str sentiment))
                "sentimentScore" (.num score)))),
          sentiment)
      | _ => .error "TypeError: argument after mapping unpack must be a mapping"
  | _ => .error "AttributeError: no attribute get"

/-- The enrichment loop: enriched bookmarks in input order plus the label of
each bookmark (the source accumulates `sentiment_counts` incrementally; the
final tally is recovered from the label list).  The first error aborts. -/
def processBookmarks : List Json → Except String (List Json × List String)
  | [] => .ok ([], [])
  | bm :: rest =>
    match enrichBookmark bm with
    | .error e => .error e
    | .ok (ebm, label) =>
      match processBookmarks rest with
      | .error e => .error e
      | .ok (ebms, labels) => .ok (ebm :: ebms, label :: labels)

/-- Python `for` iteration over the `bookmarks` value: lists yield their
elements, strings their characters, dicts their keys in order; other values
raise a TypeError. -/
def iteratePy : Json → Option (List Json)
  | .arr xs => some xs
  | .str s => some (s.data.map (fun c => .str (String.mk [c])))
  | .obj fs => some (fs.map (fun kv => .str kv.1))
  | _ => none

/-- Value of `sentiment_counts[l]` at the end of the loop. -/
def sentimentTally (labels : List String) (l : String) : ℕ :=
  (labels.filter (fun x => x == l)).length

/-- Observable outcome of one run of the script. -/
structure RunResult where
  stdout : Option Json
  stderr : Option String
  exitCode : ℕ

/-- The `except` handler: message on stderr, `sys.exit(1)`, nothing
printed. -/
def errResult (e : String) : RunResult :=
  ⟨none, some ("Error processing bookmarks: " ++ e), 1⟩

/-- Model of `main()`: the input is `.error` when `json.loads` fails,
otherwise the parsed document.  On success the document is echoed with
`bookmarks` replaced by the enriched sequence and `metadata` extended with
the tally; the single `print` happens only after the whole loop, so a
failing run writes nothing to stdout. -/
def run (input : Except String Json) : RunResult :=
  match input with
  | .error e => errResult e
  | .ok doc =>
    match doc with
    | .obj topFs =>
      match iteratePy (getD topFs "bookmarks" (.arr [])) with
      | none => errResult "TypeError: not iterable"
      | some items =>
        match processBookmarks items with
        | .error e => errResult e
        | .ok (enriched, labels) =>
          match getD topFs "metadata" (.obj []) with
          | .obj mdFs =>
            { stdout := some (.obj (objSet (objSet topFs "bookmarks" (.arr enriched))
                "metadata" (.obj (objSet mdFs "sentimentAnalysis" (.obj
                  [("positive", .num (sentimentTally labels "positive")),
                   ("negative", .num (sentimentTally labels "negative")),
                   ("neutral", .num (sentimentTally labels "neutral"))]))))),
              stderr := none, exitCode := 0 }
          | _ => errResult "TypeError: argument after mapping unpack must be a mapping"
    | _ => errResult "AttributeError: no attribute get"

/-- The labelling rule asserted by the spec: thresholds applied to the
*rounded* score, boundary values 0.20 and -0.20 mapping to neutral. -/
def labelOfRounded (q : ℚ) : String :=
  if 1/5 < q then "positive" else if q < -(1/5) then "negative" else "neutral"

/-- Label thresholds applied to an (unrounded) binary64 score: compare
against the double value of the literal 0.2. -/
def labelOfScore (q : ℚ) : String :=
  if fracVal dbl02 < q then "positive"
  else if q < -fracVal dbl02 then "negative" else "neutral"

/-- Round-half-even to the nearest integer over exact rationals — the
rounding mode the spec prescribes for the score. -/
def rheRat (x : ℚ) : ℤ :=
  if x - ⌊x⌋ < 1/2 then ⌊x⌋
  else if (1 : ℚ)/2 < x - ⌊x⌋ then ⌊x⌋ + 1
  else if ⌊x⌋ % 2 = 0 then ⌊x⌋ else ⌊x⌋ + 1

/-- Round-half-to-even to 2 decimal places over exact rationals, as the
spec's wording asserts for the score. -/
def roundHalfEven2 (q : ℚ) : ℚ := (rheRat (q * 100) : ℚ) / 100

/-- Concrete single-bookmark document used by the pipeline witnesses. -/
def wBm : Json := .obj [("text", .str "good")]

/-- Fields of the concrete top-level document. -/
def wTop : List (String × Json) := [("bookmarks", .arr [wBm])]

/-- The bookmark list of the concrete document. -/
def wItems : List Json := [wBm]

/-- The enrichment of `wBm`. -/
def wEbm : Json := .obj [("text", .str "good"),
  ("customAnalysis", .obj [("sentiment", .str "positive"), ("sentimentScore", .num 1)])]

/-- The full output document of the concrete run. -/
def wOut : Json := .obj [("bookmarks", .arr [wEbm]),
  ("metadata", .obj [("sentimentAnalysis", .obj
    [("positive", .num 1), ("negative", .num 0), ("neutral", .num 0)])])]

/-- Fields of a bookmark carrying extra fields and a pre-existing
`customAnalysis` sub-record with colliding keys. -/
def wBm2Fields : List (String × Json) :=
  [("text", .str "bad"), ("note", .str "keep"),
   ("customAnalysis", .obj [("sentiment", .str "stale"), ("sentimentScore", .num 99),
     ("keep", .bool true)])]

/-- The pre-existing `customAnalysis` sub-record of `wBm2Fields`. -/
def wCa2 : List (String × Json) :=
  [("sentiment", .str "stale"), ("sentimentScore", .num 99), ("keep", .bool true)]

/-- The enrichment of the bookmark `wBm2Fields`. -/
def wEbm2 : Json := .obj [("text", .str "bad"), ("note", .str "keep"),
  ("customAnalysis", .obj [("sentiment", .str "negative"), ("sentimentScore", .num (-1)),
    ("keep", .bool true)])]

/-- Top-level fields of a second concrete document with extra top-level
fields and pre-existing metadata. -/
def wTop2 : List (String × Json) :=
  [("title", .str "t"), ("bookmarks", .arr [.obj wBm2Fields]),
   ("metadata", .obj [("m", .num 5)])]

/-- The output of running on `wTop2`. -/
def wOut2 : Json := .obj
  [("title", .str "t"), ("bookmarks", .arr [wEbm2]),
   ("metadata", .obj [("m", .num 5), ("sentimentAnalysis", .obj
     [("positive", .num 0), ("negative", .num 1), ("neutral", .num 0)])])]

example : dbl02 = (7205759403792794, 36028797018963968) := by with_unfolding_all rfl

example : analyze_sentiment "" = ("neutral", 0) := by with_unfolding_all rfl

example : analyze_sentiment "good but bad" = ("neutral", 0) := by with_unfolding_all rfl

example : analyze_sentiment "This is a great and helpful tool" = ("positive", 1) := by
  with_unfolding_all rfl

example : analyze_sentiment "This is broken and terrible, a real bug" = ("negative", -1) := by
  with_unfolding_all rfl

example : analyze_sentiment "The weather today is mild" = ("neutral", 0) := by
  with_unfolding_all rfl


example : analyze_sentiment exC1 = ("positive", 1/5) := by with_unfolding_all rfl

example : analyze_sentiment exC7 = ("neutral", 3/100) := by with_unfolding_all rfl

example :
    run (.ok (.obj [("bookmarks",
        .arr [.obj [("text", .str "This is a great and helpful tool")]])])) =
      { stdout := some (.obj
          [("bookmarks", .arr [.obj [("text", .str "This is a great and helpful tool"),
              ("customAnalysis", .obj [("sentiment", .str "positive"),
                ("sentimentScore", .num 1)])]]),
           ("metadata", .obj [("sentimentAnalysis", .obj
              [("positive", .num 1), ("negative", .num 0), ("neutral", .num 0)])])]),
        stderr := none, exitCode := 0 } := by with_unfolding_all rfl

example :
    run (.ok (.obj [("bookmarks", .arr [])])) =
      { stdout := some (.obj
          [("bookmarks", .arr []),
           ("metadata", .obj [("sentimentAnalysis", .obj
              [("positive", .num 0), ("negative", .num 0), ("neutral", .num 0)])])]),
        stderr := none, exitCode := 0 } := by with_unfolding_all rfl

example :
    run (.error "Expecting value: line 1 column 1 (char 0)") =
      { stdout := none,
        stderr := some "Error processing bookmarks: Expecting value: line 1 column 1 (char 0)",
        exitCode := 1 } := by with_unfolding_all rfl

theorem lookupField_objSet_self (fs : List (String × Json)) (k : String) (v : Json) :
    lookupField (objSet fs k v) k = some v := by
  induction fs with
  | nil => simp [objSet, lookupField]
  | cons kv rest ih =>
    obtain ⟨k', v'⟩ := kv
    by_cases h : k' = k
    · simp [objSet, h, lookupField]
    · simp [objSet, h, lookupField, ih]

theorem lookupField_objSet_ne (fs : List (String × Json)) (k k' : String) (v : Json)
    (h : k' ≠ k) : lookupField (objSet fs k v) k' = lookupField fs k' := by
  induction fs with
  | nil => simp [objSet, lookupField, Ne.symm h]
  | cons kv rest ih =>
    obtain ⟨k'', v''⟩ := kv
    by_cases hk : k'' = k
    · subst hk
      simp [objSet, lookupField, Ne.symm h]
    · simp only [objSet, if_neg hk, lookupField]
      by_cases hk2 : k'' = k'
      · simp [hk2]
      · simp [hk2, ih]

theorem pow2_pos (n : ℕ) : 0 < pow2 n := by
  induction n with
  | zero => simp [pow2]
  | succ n ih => simp only [pow2]; omega

theorem pow2_eq (n : ℕ) : pow2 n = 2 ^ n := by
  induction n with
  | zero => simp [pow2]
  | succ n ih => simp [pow2, ih, Nat.pow_succ]; ring

theorem rheInt_bounds (x d : ℤ) (hd : 0 < d) :
    2 * x - d ≤ 2 * rheInt x d * d ∧ 2 * rheInt x d * d ≤ 2 * x + d := by
  have h1 : 0 ≤ x % d := Int.emod_nonneg x (ne_of_gt hd)
  have h2 : x % d < d := Int.emod_lt_of_pos x hd
  have h3 : d * (x / d) + x % d = x := Int.ediv_add_emod x d
  have h4 : d * (x / d) = x / d * d := mul_comm _ _
  unfold rheInt
  split_ifs with hA hB hC <;> constructor <;> linarith

theorem rheInt_close (x d : ℤ) (hd : 0 < d) :
    |(rheInt x d : ℚ) - (x : ℚ) / (d : ℚ)| ≤ 1 / 2 := by
  obtain ⟨hb1, hb2⟩ := rheInt_bounds x d hd
  have hdq : (0 : ℚ) < (d : ℚ) := by exact_mod_cast hd
  have c1 : (2 * (x : ℚ) - d) ≤ 2 * (rheInt x d : ℚ) * d := by exact_mod_cast hb1
  have c2 : 2 * (rheInt x d : ℚ) * d ≤ 2 * (x : ℚ) + d := by exact_mod_cast hb2
  have e1 : (rheInt x d : ℚ) - (x : ℚ) / d =
      (2 * (rheInt x d : ℚ) * d - 2 * x) / (2 * d) := by
    field_simp
    ring
  rw [e1, abs_div, abs_of_pos (by positivity : (0 : ℚ) < 2 * d),
    div_le_iff (by positivity : (0 : ℚ) < 2 * d)]
  have habs : |2 * (rheInt x d : ℚ) * d - 2 * x| ≤ (d : ℚ) :=
    abs_le.mpr ⟨by linarith, by linarith⟩
  linarith

/-- Characterisation of `toDoubleF a b` for `0 < |a| ≤ b`: an unreduced
fraction `±m / P` with `m ≤ P`, `P ≥ 2^52`, within `1/(2P)` of `|a|/b`. -/
theorem toDoubleF_spec (a : ℤ) (b : ℕ) (ha : a ≠ 0) (hb : b ≠ 0)
    (hab : a.natAbs ≤ b) :
    ∃ (P : ℕ) (m : ℤ),
      toDoubleF a b = ((if a < 0 then -m else m), P) ∧
      200 ≤ P ∧ 0 ≤ m ∧ m ≤ (P : ℤ) ∧
      |(m : ℚ) / (P : ℚ) - (a.natAbs : ℚ) / (b : ℚ)| ≤ 1 / (2 * (P : ℚ)) := by
  have hbz : 0 < (b : ℤ) := by exact_mod_cast Nat.pos_of_ne_zero hb
  have hbq : (0 : ℚ) < (b : ℚ) := by exact_mod_cast Nat.pos_of_ne_zero hb
  have hq1 : (a.natAbs : ℚ) / (b : ℚ) ≤ 1 := by
    rw [div_le_one hbq]
    exact_mod_cast hab
  have hL : Int.log 2 ((a.natAbs : ℚ) / (b : ℚ)) ≤ 0 := by
    rw [Int.log_of_right_le_one 2 hq1]
    simp
  have hs : 0 ≤ 52 - Int.log 2 ((a.natAbs : ℚ) / (b : ℚ)) := by omega
  refine ⟨pow2 (52 - Int.log 2 ((a.natAbs : ℚ) / (b : ℚ))).toNat,
    rheInt ((a.natAbs : ℤ) *
      (pow2 (52 - Int.log 2 ((a.natAbs : ℚ) / (b : ℚ))).toNat : ℤ)) b,
    ?_, ?_, ?_, ?_, ?_⟩
  · simp only [toDoubleF, if_neg ha, if_pos hs]
  · have h52 : 52 ≤ (52 - Int.log 2 ((a.natAbs : ℚ) / (b : ℚ))).toNat := by omega
    calc (200 : ℕ) ≤ 2 ^ 52 := by norm_num
    _ ≤ 2 ^ (52 - Int.log 2 ((a.natAbs : ℚ) / (b : ℚ))).toNat :=
        Nat.pow_le_pow_right (by norm_num) h52
    _ = pow2 _ := (pow2_eq _).symm
  · obtain ⟨g1, _⟩ := rheInt_bounds ((a.natAbs : ℤ) *
      (pow2 (52 - Int.log 2 ((a.natAbs : ℚ) / (b : ℚ))).toNat : ℤ)) b hbz
    have hAP : 0 ≤ (a.natAbs : ℤ) *
        (pow2 (52 - Int.log 2 ((a.natAbs : ℚ) / (b : ℚ))).toNat : ℤ) := by positivity
    have hmul : (-1 : ℤ) * (b : ℤ) ≤ 2 * rheInt ((a.natAbs : ℤ) *
        (pow2 (52 - Int.log 2 ((a.natAbs : ℚ) / (b : ℚ))).toNat : ℤ)) b * (b : ℤ) := by
      linarith
    have h2m := le_of_mul_le_mul_right hmul hbz
    omega
  · obtain ⟨_, g2⟩ := rheInt_bounds ((a.natAbs : ℤ) *
      (pow2 (52 - Int.log 2 ((a.natAbs : ℚ) / (b : ℚ))).toNat : ℤ)) b hbz
    have hPz : (0 : ℤ) ≤ (pow2 (52 - Int.log 2 ((a.natAbs : ℚ) / (b : ℚ))).toNat : ℤ) := by
      positivity
    have hA : (a.natAbs : ℤ) ≤ (b : ℤ) := by exact_mod_cast hab
    have hAPb : (a.natAbs : ℤ) *
          (pow2 (52 - Int.log 2 ((a.natAbs : ℚ) / (b : ℚ))).toNat : ℤ) ≤
        (b : ℤ) * (pow2 (52 - Int.log 2 ((a.natAbs : ℚ) / (b : ℚ))).toNat : ℤ) :=
      mul_le_mul_of_nonneg_right hA hPz
    have h2m : 2 * rheInt ((a.natAbs : ℤ) *
          (pow2 (52 - Int.log 2 ((a.natAbs : ℚ) / (b : ℚ))).toNat : ℤ)) b ≤
        2 * (pow2 (52 - Int.log 2 ((a.natAbs : ℚ) / (b : ℚ))).toNat : ℤ) + 1 :=
      le_of_mul_le_mul_right (by nlinarith) hbz
    omega
  · have hPq : (0 : ℚ) <
        ((pow2 (52 - Int.log 2 ((a.natAbs : ℚ) / (b : ℚ))).toNat : ℕ) : ℚ) := by
      exact_mod_cast pow2_pos _
    have hclose := rheInt_close ((a.natAbs : ℤ) *
      (pow2 (52 - Int.log 2 ((a.natAbs : ℚ) / (b : ℚ))).toNat : ℤ)) b hbz
    have ecast : (((a.natAbs : ℤ) *
        (pow2 (52 - Int.log 2 ((a.natAbs : ℚ) / (b : ℚ))).toNat : ℤ) : ℤ) : ℚ) =
        (a.natAbs : ℚ) *
          ((pow2 (52 - Int.log 2 ((a.natAbs : ℚ) / (b : ℚ))).toNat : ℕ) : ℚ) := by
      rw [Int.cast_mul, Int.cast_natCast, Int.cast_natCast]
    rw [ecast] at hclose
    have e : (rheInt ((a.natAbs : ℤ) *
          (pow2 (52 - Int.log 2 ((a.natAbs : ℚ) / (b : ℚ))).toNat : ℤ)) b : ℚ) /
          ((pow2 (52 - Int.log 2 ((a.natAbs : ℚ) / (b : ℚ))).toNat : ℕ) : ℚ) -
          (a.natAbs : ℚ) / (b : ℚ) =
        ((rheInt ((a.natAbs : ℤ) *
            (pow2 (52 - Int.log 2 ((a.natAbs : ℚ) / (b : ℚ))).toNat : ℤ)) b : ℚ) -
          (a.natAbs : ℚ) *
            ((pow2 (52 - Int.log 2 ((a.natAbs : ℚ) / (b : ℚ))).toNat : ℕ) : ℚ) / (b : ℚ)) /
          ((pow2 (52 - Int.log 2 ((a.natAbs : ℚ) / (b : ℚ))).toNat : ℕ) : ℚ) := by
      field_simp
      ring
    rw [e, abs_div, abs_of_pos hPq]
    have erhs : (1 : ℚ) /
        (2 * ((pow2 (52 - Int.log 2 ((a.natAbs : ℚ) / (b : ℚ))).toNat : ℕ) : ℚ)) =
        (1 / 2) / ((pow2 (52 - Int.log 2 ((a.natAbs : ℚ) / (b : ℚ))).toNat : ℕ) : ℚ) := by
      ring
    rw [erhs, div_le_div_iff_of_pos_right hPq]
    exact hclose

theorem toDoubleF_zero (b : ℕ) : toDoubleF 0 b = (0, 1) := by simp [toDoubleF]

theorem toDoubleF_den_pos (a : ℤ) (b : ℕ) : 0 < (toDoubleF a b).2 := by
  by_cases h0 : a = 0
  · simp [toDoubleF, h0]
  · by_cases hs : (0 : ℤ) ≤ 52 - Int.log 2 ((a.natAbs : ℚ) / (b : ℚ))
    · simp only [toDoubleF, if_neg h0, if_pos hs]
      exact pow2_pos _
    · simp only [toDoubleF, if_neg h0, if_neg hs]
      norm_num

theorem posCount_empty : posCount "" + negCount "" = 0 := by decide

theorem analyze_sentiment_of_ne (text : String)
    (h : posCount text + negCount text ≠ 0) :
    analyze_sentiment text =
      (if fgt (scoreF text) dbl02 then "positive"
       else if flt (scoreF text) (-dbl02.1, dbl02.2) then "negative" else "neutral",
       (rheInt ((scoreF text).1 * 100) ((scoreF text).2 : ℤ) : ℚ) / 100) := by
  have ht : ¬(text = "") := by
    intro he
    apply h
    rw [he]
    exact posCount_empty
  simp only [analyze_sentiment, if_neg ht, if_neg h]

theorem analyze_score_spec (text : String) (h : posCount text + negCount text ≠ 0) :
    ∃ k : ℤ, (analyze_sentiment text).2 = (k : ℚ) / 100 ∧ -100 ≤ k ∧ k ≤ 100 ∧
      |(analyze_sentiment text).2 - rawScore text| ≤ 1 / 100 := by
  rw [analyze_sentiment_of_ne text h]
  simp only
  by_cases ha : ((posCount text : ℤ) - (negCount text : ℤ)) = 0
  · have hsF : scoreF text = (0, 1) := by rw [scoreF, ha, toDoubleF_zero]
    have hraw : rawScore text = 0 := by
      rw [rawScore]
      have hz : (posCount text : ℚ) - (negCount text : ℚ) = 0 := by exact_mod_cast ha
      rw [hz, zero_div]
    have hk : rheInt 0 1 = 0 := by decide
    refine ⟨0, ?_, by norm_num, by norm_num, ?_⟩
    · rw [hsF]
      simp [hk]
    · rw [hsF, hraw]
      simp [hk]
  · have hab : ((posCount text : ℤ) - (negCount text : ℤ)).natAbs ≤
        posCount text + negCount text := by omega
    obtain ⟨P, m, heq, hP200, hm0, hmP, herr⟩ :=
      toDoubleF_spec ((posCount text : ℤ) - (negCount text : ℤ))
        (posCount text + negCount text) ha h hab
    have hsF : scoreF text =
        ((if ((posCount text : ℤ) - (negCount text : ℤ)) < 0 then -m else m), P) := by
      rw [scoreF]
      exact heq
    have hPz : (0 : ℤ) < (P : ℤ) := by exact_mod_cast Nat.lt_of_lt_of_le (by norm_num) hP200
    have hPq : (0 : ℚ) < (P : ℚ) := by exact_mod_cast Nat.lt_of_lt_of_le (by norm_num) hP200
    have hnumb : -(P : ℤ) ≤ (if ((posCount text : ℤ) - (negCount text : ℤ)) < 0
        then -m else m) ∧
        (if ((posCount text : ℤ) - (negCount text : ℤ)) < 0 then -m else m) ≤ (P : ℤ) := by
      split_ifs <;> omega
    obtain ⟨g1, g2⟩ := rheInt_bounds ((if ((posCount text : ℤ) - (negCount text : ℤ)) < 0
      then -m else m) * 100) P hPz
    refine ⟨rheInt ((if ((posCount text : ℤ) - (negCount text : ℤ)) < 0
      then -m else m) * 100) P, ?_, ?_, ?_, ?_⟩
    · rw [hsF]
    · have hmul : (-201 : ℤ) * P ≤ 2 * rheInt ((if ((posCount text : ℤ) -
          (negCount text : ℤ)) < 0 then -m else m) * 100) P * P := by nlinarith
      have h2k := le_of_mul_le_mul_right hmul hPz
      omega
    · have hmul : 2 * rheInt ((if ((posCount text : ℤ) -
          (negCount text : ℤ)) < 0 then -m else m) * 100) P * P ≤ (201 : ℤ) * P := by
        nlinarith
      have h2k := le_of_mul_le_mul_right hmul hPz
      omega
    · rw [hsF]
      simp only
      set num : ℤ := if ((posCount text : ℤ) - (negCount text : ℤ)) < 0 then -m else m
        with hnum
      set k : ℤ := rheInt (num * 100) P with hkdef
      have hclose := rheInt_close (num * 100) P hPz
      push_cast at hclose
      have estep1 : |(k : ℚ) / 100 - (num : ℚ) / (P : ℚ)| ≤ 1 / 200 := by
        have e : (k : ℚ) / 100 - (num : ℚ) / (P : ℚ) =
            ((k : ℚ) - (num : ℚ) * 100 / (P : ℚ)) / 100 := by
          field_simp
          ring
        rw [e, abs_div, abs_of_pos (by norm_num : (0 : ℚ) < 100)]
        rw [div_le_div_iff (by norm_num) (by norm_num)]
        nlinarith [hclose]
      have hraw : rawScore text =
          (((posCount text : ℤ) - (negCount text : ℤ) : ℤ) : ℚ) /
            ((posCount text + negCount text : ℕ) : ℚ) := by
        rw [rawScore]
        push_cast
        ring
      have estep2 : |(num : ℚ) / (P : ℚ) - rawScore text| ≤ 1 / 400 := by
        have habs : |(num : ℚ) / (P : ℚ) - rawScore text| =
            |(m : ℚ) / (P : ℚ) -
              ((((posCount text : ℤ) - (negCount text : ℤ)).natAbs : ℕ) : ℚ) /
                ((posCount text + negCount text : ℕ) : ℚ)| := by
          rw [hraw, hnum]
          by_cases hlt : ((posCount text : ℤ) - (negCount text : ℤ)) < 0
          · rw [if_pos hlt]
            have hA : ((((posCount text : ℤ) - (negCount text : ℤ)).natAbs : ℕ) : ℚ) =
                -((((posCount text : ℤ) - (negCount text : ℤ)) : ℤ) : ℚ) := by
              rw [Nat.cast_natAbs, abs_of_nonpos (le_of_lt hlt)]
              push_cast
              ring
            rw [hA, ← abs_neg]
            congr 1
            push_cast
            ring
          · rw [if_neg hlt]
            have hA : ((((posCount text : ℤ) - (negCount text : ℤ)).natAbs : ℕ) : ℚ) =
                ((((posCount text : ℤ) - (negCount text : ℤ)) : ℤ) : ℚ) := by
              rw [Nat.cast_natAbs, abs_of_nonneg (not_lt.mp hlt)]
            rw [hA]
        rw [habs]
        calc |(m : ℚ) / (P : ℚ) -
              ((((posCount text : ℤ) - (negCount text : ℤ)).natAbs : ℕ) : ℚ) /
                ((posCount text + negCount text : ℕ) : ℚ)| ≤ 1 / (2 * (P : ℚ)) := herr
        _ ≤ 1 / 400 := by
            apply div_le_div_of_nonneg_left (by norm_num) (by norm_num)
            have : (400 : ℚ) ≤ 2 * (P : ℚ) := by
              have : (200 : ℚ) ≤ (P : ℚ) := by exact_mod_cast hP200
              linarith
            linarith
      calc |(k : ℚ) / 100 - rawScore text| ≤
          |(k : ℚ) / 100 - (num : ℚ) / (P : ℚ)| + |(num : ℚ) / (P : ℚ) - rawScore text| :=
            abs_sub_le _ _ _
      _ ≤ 1 / 200 + 1 / 400 := add_le_add estep1 estep2
      _ ≤ 1 / 100 := by norm_num

theorem fgt_iff (x y : ℤ × ℕ) (hx : 0 < x.2) (hy : 0 < y.2) :
    fgt x y = true ↔ fracVal y < fracVal x := by
  have hxq : (0 : ℚ) < (x.2 : ℚ) := by exact_mod_cast hx
  have hyq : (0 : ℚ) < (y.2 : ℚ) := by exact_mod_cast hy
  rw [fgt, decide_eq_true_eq, fracVal, fracVal, div_lt_div_iff hyq hxq]
  constructor <;> intro hh <;> exact_mod_cast hh

theorem flt_iff (x y : ℤ × ℕ) (hx : 0 < x.2) (hy : 0 < y.2) :
    flt x y = true ↔ fracVal x < fracVal y := by
  have hxq : (0 : ℚ) < (x.2 : ℚ) := by exact_mod_cast hx
  have hyq : (0 : ℚ) < (y.2 : ℚ) := by exact_mod_cast hy
  rw [flt, decide_eq_true_eq, fracVal, fracVal, div_lt_div_iff hxq hyq]
  constructor <;> intro hh <;> exact_mod_cast hh

theorem fracVal_neg_dbl02 : fracVal (-dbl02.1, dbl02.2) = -fracVal dbl02 := by
  simp [fracVal, neg_div]

theorem analyze_of_zero_hits (text : String)
    (h : posCount text + negCount text = 0) :
    analyze_sentiment text = ("neutral", 0) := by
  by_cases ht : text = ""
  · simp [analyze_sentiment, ht]
  · simp [analyze_sentiment, ht, h]

theorem analyze_label_mem (text : String) :
    (analyze_sentiment text).1 = "positive" ∨ (analyze_sentiment text).1 = "negative" ∨
      (analyze_sentiment text).1 = "neutral" := by
  by_cases h : posCount text + negCount text = 0
  · rw [analyze_of_zero_hits text h]
    simp
  · rw [analyze_sentiment_of_ne text h]
    simp only
    split_ifs <;> simp

theorem analyzeJson_label_mem (t : Json) (lab : String) (sc : ℚ)
    (h : analyzeJson t = .ok (lab, sc)) :
    lab = "positive" ∨ lab = "negative" ∨ lab = "neutral" := by
  unfold analyzeJson at h
  by_cases ht : truthy t = false
  · rw [if_pos ht] at h
    have h2 := Except.ok.inj h
    right; right
    exact (congrArg Prod.fst h2).symm
  · rw [if_neg ht] at h
    cases t with
    | str s =>
      have h2 := Except.ok.inj h
      have hmem := analyze_label_mem s
      rw [h2] at hmem
      exact hmem
    | null => exact absurd h (by simp)
    | bool b => exact absurd h (by simp)
    | num q => exact absurd h (by simp)
    | arr xs => exact absurd h (by simp)
    | obj fs => exact absurd h (by simp)

theorem enrichBookmark_label_mem (bm ebm : Json) (l : String)
    (h : enrichBookmark bm = .ok (ebm, l)) :
    l = "positive" ∨ l = "negative" ∨ l = "neutral" := by
  cases bm with
  | obj fs =>
    rw [enrichBookmark] at h
    cases han : analyzeJson (getD fs "text" (.str "")) with
    | error e => rw [han] at h; simp at h
    | ok p =>
      obtain ⟨lab, sc⟩ := p
      rw [han] at h
      cases hmd : getD fs "customAnalysis" (.obj []) with
      | obj ca =>
        rw [hmd] at h
        simp at h
        rw [← h.2]
        exact analyzeJson_label_mem _ _ _ han
      | null => rw [hmd] at h; simp at h
      | bool b => rw [hmd] at h; simp at h
      | num q => rw [hmd] at h; simp at h
      | str s => rw [hmd] at h; simp at h
      | arr xs => rw [hmd] at h; simp at h
  | null => simp [enrichBookmark] at h
  | bool b => simp [enrichBookmark] at h
  | num q => simp [enrichBookmark] at h
  | str s => simp [enrichBookmark] at h
  | arr xs => simp [enrichBookmark] at h

theorem processBookmarks_spec (items enriched : List Json) (labels : List String)
    (h : processBookmarks items = .ok (enriched, labels)) :
    enriched.length = items.length ∧ labels.length = items.length ∧
    ∀ i (h1 : i < items.length) (h2 : i < enriched.length) (h3 : i < labels.length),
      enrichBookmark (items.get ⟨i, h1⟩) =
        .ok (enriched.get ⟨i, h2⟩, labels.get ⟨i, h3⟩) := by
  induction items generalizing enriched labels with
  | nil =>
    simp [processBookmarks] at h
    obtain ⟨h1, h2⟩ := h
    subst h1
    subst h2
    exact ⟨rfl, rfl, fun i h1 => absurd h1 (by simp)⟩
  | cons bm rest ih =>
    simp only [processBookmarks] at h
    cases he : enrichBookmark bm with
    | error e => rw [he] at h; simp at h
    | ok p =>
      obtain ⟨ebm, lab⟩ := p
      rw [he] at h
      cases hr : processBookmarks rest with
      | error e => rw [hr] at h; simp at h
      | ok pr =>
        obtain ⟨ebms, labs⟩ := pr
        rw [hr] at h
        simp at h
        obtain ⟨h1, h2⟩ := h
        subst h1
        subst h2
        obtain ⟨ihl1, ihl2, ihg⟩ := ih ebms labs hr
        refine ⟨by simp [ihl1], by simp [ihl2], ?_⟩
        intro i h1 h2 h3
        cases i with
        | zero => simpa using he
        | succ j =>
          simpa using ihg j (by simpa using h1) (by simpa using h2) (by simpa using h3)

theorem processBookmarks_labels_mem (items enriched : List Json)
    (labels : List String) (h : processBookmarks items = .ok (enriched, labels)) :
    ∀ l ∈ labels, l = "positive" ∨ l = "negative" ∨ l = "neutral" := by
  induction items generalizing enriched labels with
  | nil =>
    simp [processBookmarks] at h
    obtain ⟨_, h2⟩ := h
    subst h2
    simp
  | cons bm rest ih =>
    simp only [processBookmarks] at h
    cases he : enrichBookmark bm with
    | error e => rw [he] at h; simp at h
    | ok p =>
      obtain ⟨ebm, lab⟩ := p
      rw [he] at h
      cases hr : processBookmarks rest with
      | error e => rw [hr] at h; simp at h
      | ok pr =>
        obtain ⟨ebms, labs⟩ := pr
        rw [hr] at h
        simp at h
        obtain ⟨h1, h2⟩ := h
        subst h2
        intro l hl
        rcases List.mem_cons.mp hl with hl | hl
        · subst hl
          exact enrichBookmark_label_mem bm ebm l he
        · exact ih ebms labs hr l hl

theorem processBookmarks_error_of_mem (items : List Json) (bm : Json) (e : String)
    (hmem : bm ∈ items) (he : enrichBookmark bm = .error e) :
    ∃ e2, processBookmarks items = .error e2 := by
  induction items with
  | nil => cases hmem
  | cons x rest ih =>
    rcases List.mem_cons.mp hmem with hx | hx
    · subst hx
      exact ⟨e, by simp [processBookmarks, he]⟩
    · cases hxe : enrichBookmark x with
      | error e2 => exact ⟨e2, by simp [processBookmarks, hxe]⟩
      | ok p =>
        obtain ⟨ebm, lab⟩ := p
        obtain ⟨e2, he2⟩ := ih hx
        exact ⟨e2, by simp [processBookmarks, hxe, he2]⟩

theorem sentimentTally_three (labels : List String)
    (hmem : ∀ l ∈ labels, l = "positive" ∨ l = "negative" ∨ l = "neutral") :
    sentimentTally labels "positive" + sentimentTally labels "negative" +
      sentimentTally labels "neutral" = labels.length := by
  induction labels with
  | nil => simp [sentimentTally]
  | cons x rest ih =>
    have hx := hmem x (List.mem_cons_self x rest)
    have hrest := fun l hl => hmem l (List.mem_cons_of_mem x hl)
    have ihr := ih hrest
    rcases hx with hx | hx | hx <;> subst hx <;>
      simp only [sentimentTally, List.filter_cons, beq_iff_eq] at ihr ⊢ <;>
      simp only [show (("positive" : String) = "negative") ↔ False by simp,
        show (("positive" : String) = "neutral") ↔ False by simp,
        show (("negative" : String) = "positive") ↔ False by simp,
        show (("negative" : String) = "neutral") ↔ False by simp,
        show (("neutral" : String) = "positive") ↔ False by simp,
        show (("neutral" : String) = "negative") ↔ False by simp,
        show (("positive" : String) = "positive") ↔ True by simp,
        show (("negative" : String) = "negative") ↔ True by simp,
        show (("neutral" : String) = "neutral") ↔ True by simp,
        if_true, if_false, List.length_cons] <;>
      omega

/-- Decomposition of a successful run: the pieces of the output document. -/
theorem run_stdout_spec (topFs : List (String × Json)) (out : Json)
    (hout : (run (.ok (.obj topFs))).stdout = some out) :
    ∃ items enriched labels mdFs,
      iteratePy (getD topFs "bookmarks" (.arr [])) = some items ∧
      processBookmarks items = .ok (enriched, labels) ∧
      getD topFs "metadata" (.obj []) = .obj mdFs ∧
      out = .obj (objSet (objSet topFs "bookmarks" (.arr enriched)) "metadata"
        (.obj (objSet mdFs "sentimentAnalysis" (.obj
          [("positive", .num (sentimentTally labels "positive")),
           ("negative", .num (sentimentTally labels "negative")),
           ("neutral", .num (sentimentTally labels "neutral"))])))) := by
  cases hit : iteratePy (getD topFs "bookmarks" (.arr [])) with
  | none => simp [run, hit, errResult] at hout
  | some items =>
    cases hpb : processBookmarks items with
    | error e => simp [run, hit, hpb, errResult] at hout
    | ok pr =>
      obtain ⟨enriched, labels⟩ := pr
      cases hmd : getD topFs "metadata" (.obj []) with
      | obj mdFs =>
        simp only [run, hit, hpb, hmd] at hout
        simp at hout
        exact ⟨items, enriched, labels, mdFs, rfl, hpb, rfl, hout.symm⟩
      | null => simp [run, hit, hpb, hmd, errResult] at hout
      | bool b => simp [run, hit, hpb, hmd, errResult] at hout
      | num q => simp [run, hit, hpb, hmd, errResult] at hout
      | str s => simp [run, hit, hpb, hmd, errResult] at hout
      | arr xs => simp [run, hit, hpb, hmd, errResult] at hout

/-- Every run either yields the error result or succeeds cleanly. -/
theorem run_cases (input : Except String Json) :
    (∃ e, run input = errResult e) ∨
    ((run input).exitCode = 0 ∧ (run input).stderr = none ∧
      ∃ out, (run input).stdout = some out) := by
  cases input with
  | error e => exact .inl ⟨e, rfl⟩
  | ok doc =>
    cases doc with
    | obj topFs =>
      cases hit : iteratePy (getD topFs "bookmarks" (.arr [])) with
      | none => exact .inl ⟨"TypeError: not iterable", by simp [run, hit]⟩
      | some items =>
        cases hpb : processBookmarks items with
        | error e => exact .inl ⟨e, by simp [run, hit, hpb]⟩
        | ok pr =>
          obtain ⟨enriched, labels⟩ := pr
          cases hmd : getD topFs "metadata" (.obj []) with
          | obj mdFs =>
            right
            refine ⟨?_, ?_, ?_⟩ <;> simp [run, hit, hpb, hmd]
          | null => exact .inl ⟨"TypeError: argument after mapping unpack must be a mapping", by simp [run, hit, hpb, hmd]⟩
          | bool b => exact .inl ⟨"TypeError: argument after mapping unpack must be a mapping", by simp [run, hit, hpb, hmd]⟩
          | num q => exact .inl ⟨"TypeError: argument after mapping unpack must be a mapping", by simp [run, hit, hpb, hmd]⟩
          | str s => exact .inl ⟨"TypeError: argument after mapping unpack must be a mapping", by simp [run, hit, hpb, hmd]⟩
          | arr xs => exact .inl ⟨"TypeError: argument after mapping unpack must be a mapping", by simp [run, hit, hpb, hmd]⟩
    | null => exact .inl ⟨_, rfl⟩
    | bool b => exact .inl ⟨_, rfl⟩
    | num q => exact .inl ⟨_, rfl⟩
    | str s => exact .inl ⟨_, rfl⟩
    | arr xs => exact .inl ⟨_, rfl⟩

theorem enrichBookmark_obj_spec (fs : List (String × Json)) (ebm : Json) (l : String)
    (h : enrichBookmark (.obj fs) = .ok (ebm, l)) :
    ∃ (lab : String) (sc : ℚ) (ca : List (String × Json)),
      analyzeJson (getD fs "text" (.str "")) = .ok (lab, sc) ∧
      getD fs "customAnalysis" (.obj []) = .obj ca ∧ l = lab ∧
      ebm = .obj (objSet fs "customAnalysis"
        (.obj (objSet (objSet ca "sentiment" (.str lab)) "sentimentScore" (.num sc)))) := by
  rw [enrichBookmark] at h
  cases han : analyzeJson (getD fs "text" (.str "")) with
  | error e => rw [han] at h; simp at h
  | ok p =>
    obtain ⟨lab, sc⟩ := p
    rw [han] at h
    cases hca : getD fs "customAnalysis" (.obj []) with
    | obj ca =>
      rw [hca] at h
      simp at h
      exact ⟨lab, sc, ca, rfl, rfl, h.2.symm, h.1.symm⟩
    | null => rw [hca] at h; simp at h
    | bool b => rw [hca] at h; simp at h
    | num q => rw [hca] at h; simp at h
    | str s => rw [hca] at h; simp at h
    | arr xs => rw [hca] at h; simp at h

/-- C2: on every successful run, the tally written at
`metadata.sentimentAnalysis` counts every bookmark exactly once: the three
counts sum to the number of bookmarks, and each count is the number of
bookmarks whose computed label is that label. -/
theorem C2_tally (topFs : List (String × Json)) (items : List Json) (out : Json)
    (hit : iteratePy (getD topFs "bookmarks" (.arr [])) = some items)
    (hout : (run (.ok (.obj topFs))).stdout = some out) :
    ∃ (enriched : List Json) (labels : List String) (md : Json),
      processBookmarks items = .ok (enriched, labels) ∧
      Json.lookup out "metadata" = some md ∧
      Json.lookup md "sentimentAnalysis" = some (.obj
        [("positive", .num (sentimentTally labels "positive")),
         ("negative", .num (sentimentTally labels "negative")),
         ("neutral", .num (sentimentTally labels "neutral"))]) ∧
      sentimentTally labels "positive" + sentimentTally labels "negative" +
        sentimentTally labels "neutral" = items.length ∧
      labels.length = items.length ∧
      ∀ i (h1 : i < items.length) (h3 : i < labels.length),
        ∃ eb, enrichBookmark (items.get ⟨i, h1⟩) = .ok (eb, labels.get ⟨i, h3⟩) := by
  obtain ⟨items2, enriched, labels, mdFs, hit2, hpb, hmd, hform⟩ :=
    run_stdout_spec topFs out hout
  have hii : items2 = items := by
    rw [hit] at hit2
    exact (Option.some.inj hit2).symm
  rw [hii] at hpb
  obtain ⟨hl1, hl2, hget⟩ := processBookmarks_spec items enriched labels hpb
  refine ⟨enriched, labels,
    .obj (objSet mdFs "sentimentAnalysis" (.obj
      [("positive", .num (sentimentTally labels "positive")),
       ("negative", .num (sentimentTally labels "negative")),
       ("neutral", .num (sentimentTally labels "neutral"))])),
    hpb, ?_, ?_, ?_, hl2, ?_⟩
  · rw [hform]
    simp only [Json.lookup]
    exact lookupField_objSet_self _ _ _
  · simp only [Json.lookup]
    exact lookupField_objSet_self _ _ _
  · rw [← hl2]
    exact sentimentTally_three labels (processBookmarks_labels_mem items enriched labels hpb)
  · intro i h1 h3
    exact ⟨enriched.get ⟨i, by omega⟩, hget i h1 (by omega) h3⟩

/-- Witness for C2 at the one-bookmark document `wTop`. -/
theorem C2_tally_witness :
    (iteratePy (getD wTop "bookmarks" (.arr [])) = some wItems) ∧
    ((run (.ok (.obj wTop))).stdout = some wOut) ∧
    (∃ (enriched : List Json) (labels : List String) (md : Json),
      processBookmarks wItems = .ok (enriched, labels) ∧
      Json.lookup wOut "metadata" = some md ∧
      Json.lookup md "sentimentAnalysis" = some (.obj
        [("positive", .num (sentimentTally labels "positive")),
         ("negative", .num (sentimentTally labels "negative")),
         ("neutral", .num (sentimentTally labels "neutral"))]) ∧
      sentimentTally labels "positive" + sentimentTally labels "negative" +
        sentimentTally labels "neutral" = wItems.length ∧
      labels.length = wItems.length ∧
      ∀ i (h1 : i < wItems.length) (h3 : i < labels.length),
        ∃ eb, enrichBookmark (wItems.get ⟨i, h1⟩) = .ok (eb, labels.get ⟨i, h3⟩)) :=
  ⟨by with_unfolding_all rfl, by with_unfolding_all rfl,
    C2_tally wTop wItems wOut (by with_unfolding_all rfl) (by with_unfolding_all rfl)⟩

/-- C4: frame preservation — top-level fields other than `bookmarks` and
`metadata` are looked up unchanged in the output; bookmark fields other than
`customAnalysis` are unchanged in the enriched bookmark; and keys of a
pre-existing `customAnalysis` other than `sentiment` and `sentimentScore`
keep their original values. -/
theorem C4_preservation :
    (∀ (topFs : List (String × Json)) (out : Json),
      (run (.ok (.obj topFs))).stdout = some out →
      ∀ k, k ≠ "bookmarks" → k ≠ "metadata" →
        Json.lookup out k = lookupField topFs k) ∧
    (∀ (fs : List (String × Json)) (ebm : Json) (l : String),
      enrichBookmark (.obj fs) = .ok (ebm, l) →
      ∀ k, k ≠ "customAnalysis" → Json.lookup ebm k = lookupField fs k) ∧
    (∀ (fs ca : List (String × Json)) (ebm : Json) (l : String),
      lookupField fs "customAnalysis" = some (.obj ca) →
      enrichBookmark (.obj fs) = .ok (ebm, l) →
      ∀ k, k ≠ "sentiment" → k ≠ "sentimentScore" →
        ∃ ca', Json.lookup ebm "customAnalysis" = some (.obj ca') ∧
          lookupField ca' k = lookupField ca k) := by
  refine ⟨?_, ?_, ?_⟩
  · intro topFs out hout k hk1 hk2
    obtain ⟨items, enriched, labels, mdFs, hit2, hpb, hmd, hform⟩ :=
      run_stdout_spec topFs out hout
    rw [hform]
    simp only [Json.lookup]
    rw [lookupField_objSet_ne _ _ _ _ hk2, lookupField_objSet_ne _ _ _ _ hk1]
  · intro fs ebm l he k hk
    obtain ⟨lab, sc, ca, han, hgd, hl, hebm⟩ := enrichBookmark_obj_spec fs ebm l he
    rw [hebm]
    simp only [Json.lookup]
    rw [lookupField_objSet_ne _ _ _ _ hk]
  · intro fs ca ebm l hca he k hk1 hk2
    obtain ⟨lab, sc, ca2, han, hgd, hl, hebm⟩ := enrichBookmark_obj_spec fs ebm l he
    have hca2 : ca2 = ca := by
      rw [getD, hca] at hgd
      simp at hgd
      exact hgd.symm
    rw [hebm, ← hca2]
    refine ⟨objSet (objSet ca2 "sentiment" (.str lab)) "sentimentScore" (.num sc), ?_, ?_⟩
    · simp only [Json.lookup]
      exact lookupField_objSet_self _ _ _
    · rw [lookupField_objSet_ne _ _ _ _ hk2, lookupField_objSet_ne _ _ _ _ hk1]

/-- Witness for C4 on the document `wTop2`, whose bookmark carries an extra
field and a pre-existing `customAnalysis` with an untouched key. -/
theorem C4_preservation_witness :
    (Json.lookup wOut2 "title" = lookupField wTop2 "title") ∧
    (Json.lookup wEbm2 "note" = lookupField wBm2Fields "note") ∧
    (∃ ca', Json.lookup wEbm2 "customAnalysis" = some (.obj ca') ∧
      lookupField ca' "keep" = lookupField wCa2 "keep") :=
  ⟨C4_preservation.1 wTop2 wOut2 (by with_unfolding_all rfl) "title"
      (by decide) (by decide),
   C4_preservation.2.1 wBm2Fields wEbm2 "negative" (by with_unfolding_all rfl) "note"
      (by decide),
   C4_preservation.2.2 wBm2Fields wCa2 wEbm2 "negative" (by with_unfolding_all rfl)
      (by with_unfolding_all rfl) "keep" (by decide) (by decide)⟩

/-- C5: a failing run (non-zero exit) writes nothing to stdout and a message
to stderr; an iteration or per-bookmark error anywhere makes the whole run
fail — there is no per-bookmark isolation: one failing bookmark fails the
batch. -/
theorem C5_error_handling (input : Except String Json)
    (h : (run input).exitCode ≠ 0) :
    (run input).stdout = none ∧ (run input).stderr ≠ none ∧
    (run input).exitCode = 1 ∧
    (∀ (topFs : List (String × Json)) (items : List Json) (e : String),
      iteratePy (getD topFs "bookmarks" (.arr [])) = some items →
      processBookmarks items = .error e →
      run (.ok (.obj topFs)) = errResult e) ∧
    (∀ (items : List Json) (bm : Json) (e : String), bm ∈ items →
      enrichBookmark bm = .error e → ∃ e2, processBookmarks items = .error e2) := by
  have key : (run input).stdout = none ∧ (run input).stderr ≠ none ∧
      (run input).exitCode = 1 := by
    rcases run_cases input with ⟨e, he⟩ | ⟨h0, _⟩
    · rw [he]
      exact ⟨rfl, by simp [errResult], rfl⟩
    · exact absurd h0 h
  refine ⟨key.1, key.2.1, key.2.2, ?_, ?_⟩
  · intro topFs items e hit hpb
    simp [run, hit, hpb]
  · intro items bm e hmem he
    exact processBookmarks_error_of_mem items bm e hmem he

/-- Witness for C5 at an unparseable input. -/
theorem C5_error_handling_witness :
    ((run (.error "Expecting value")).exitCode ≠ 0) ∧
    ((run (.error "Expecting value")).stdout = none ∧
     (run (.error "Expecting value")).stderr ≠ none ∧
     (run (.error "Expecting value")).exitCode = 1 ∧
     (∀ (topFs : List (String × Json)) (items : List Json) (e : String),
       iteratePy (getD topFs "bookmarks" (.arr [])) = some items →
       processBookmarks items = .error e →
       run (.ok (.obj topFs)) = errResult e) ∧
     (∀ (items : List Json) (bm : Json) (e : String), bm ∈ items →
       enrichBookmark bm = .error e → ∃ e2, processBookmarks items = .error e2)) :=
  ⟨by decide, C5_error_handling (.error "Expecting value") (by decide)⟩

/-- C6: the output `bookmarks` array has the same length as the input list
and its i-th element is the enrichment of the i-th input bookmark — order
preserved, nothing dropped, inserted or reordered. -/
theorem C6_order (topFs : List (String × Json)) (items : List Json) (out : Json)
    (hit : iteratePy (getD topFs "bookmarks" (.arr [])) = some items)
    (hout : (run (.ok (.obj topFs))).stdout = some out) :
    ∃ (enriched : List Json) (labels : List String),
      processBookmarks items = .ok (enriched, labels) ∧
      Json.lookup out "bookmarks" = some (.arr enriched) ∧
      enriched.length = items.length ∧
      ∀ i (h1 : i < items.length) (h2 : i < enriched.length),
        ∃ l, enrichBookmark (items.get ⟨i, h1⟩) = .ok (enriched.get ⟨i, h2⟩, l) := by
  obtain ⟨items2, enriched, labels, mdFs, hit2, hpb, hmd, hform⟩ :=
    run_stdout_spec topFs out hout
  have hii : items2 = items := by
    rw [hit] at hit2
    exact (Option.some.inj hit2).symm
  rw [hii] at hpb
  obtain ⟨hl1, hl2, hget⟩ := processBookmarks_spec items enriched labels hpb
  refine ⟨enriched, labels, hpb, ?_, hl1, ?_⟩
  · rw [hform]
    simp only [Json.lookup]
    rw [lookupField_objSet_ne _ _ _ _ (by decide : ("bookmarks" : String) ≠ "metadata")]
    exact lookupField_objSet_self _ _ _
  · intro i h1 h2
    exact ⟨labels.get ⟨i, by omega⟩, hget i h1 h2 (by omega)⟩

/-- Witness for C6 at the one-bookmark document `wTop`. -/
theorem C6_order_witness :
    (iteratePy (getD wTop "bookmarks" (.arr [])) = some wItems) ∧
    ((run (.ok (.obj wTop))).stdout = some wOut) ∧
    (∃ (enriched : List Json) (labels : List String),
      processBookmarks wItems = .ok (enriched, labels) ∧
      Json.lookup wOut "bookmarks" = some (.arr enriched) ∧
      enriched.length = wItems.length ∧
      ∀ i (h1 : i < wItems.length) (h2 : i < enriched.length),
        ∃ l, enrichBookmark (wItems.get ⟨i, h1⟩) = .ok (enriched.get ⟨i, h2⟩, l)) :=
  ⟨by with_unfolding_all rfl, by with_unfolding_all rfl,
    C6_order wTop wItems wOut (by with_unfolding_all rfl) (by with_unfolding_all rfl)⟩

/-- C10: when the pre-existing `customAnalysis` already holds `sentiment` or
`sentimentScore` keys, the enrichment overwrites them with the freshly
computed label and score — the computed pair wins every collision. -/
theorem C10_overwrite (fs ca : List (String × Json)) (ebm : Json) (l : String)
    (_hca : lookupField fs "customAnalysis" = some (.obj ca))
    (he : enrichBookmark (.obj fs) = .ok (ebm, l)) :
    ∃ (sc : ℚ) (ca' : List (String × Json)),
      analyzeJson (getD fs "text" (.str "")) = .ok (l, sc) ∧
      Json.lookup ebm "customAnalysis" = some (.obj ca') ∧
      lookupField ca' "sentiment" = some (.str l) ∧
      lookupField ca' "sentimentScore" = some (.num sc) := by
  obtain ⟨lab, sc, ca2, han, hgd, hl, hebm⟩ := enrichBookmark_obj_spec fs ebm l he
  subst hl
  subst hebm
  refine ⟨sc, objSet (objSet ca2 "sentiment" (.str l)) "sentimentScore" (.num sc),
    han, ?_, ?_, ?_⟩
  · simp only [Json.lookup]
    exact lookupField_objSet_self _ _ _
  · rw [lookupField_objSet_ne _ _ _ _ (by decide : ("sentiment" : String) ≠ "sentimentScore")]
    exact lookupField_objSet_self _ _ _
  · exact lookupField_objSet_self _ _ _

/-- Witness for C10 at a bookmark whose `customAnalysis` already holds stale
`sentiment` and `sentimentScore` values. -/
theorem C10_overwrite_witness :
    (lookupField wBm2Fields "customAnalysis" = some (.obj wCa2)) ∧
    (enrichBookmark (.obj wBm2Fields) = .ok (wEbm2, "negative")) ∧
    (∃ (sc : ℚ) (ca' : List (String × Json)),
      analyzeJson (getD wBm2Fields "text" (.str "")) = .ok ("negative", sc) ∧
      Json.lookup wEbm2 "customAnalysis" = some (.obj ca') ∧
      lookupField ca' "sentiment" = some (.str "negative") ∧
      lookupField ca' "sentimentScore" = some (.num sc)) :=
  ⟨by with_unfolding_all rfl, by with_unfolding_all rfl,
    C10_overwrite wBm2Fields wCa2 wEbm2 "negative" (by with_unfolding_all rfl)
      (by with_unfolding_all rfl)⟩

/-- C1 (counterexample): on 59 positive and 39 negative hits the raw score
10/49 ≈ 0.204 exceeds 0.2, so the code labels the text positive, while the
returned rounded score is exactly 0.20, which the claim maps to neutral: the
label is *not* determined by the rounded score. -/
theorem C1_counterexample :
    analyze_sentiment exC1 = ("positive", 1/5) ∧
    labelOfRounded ((analyze_sentiment exC1).2) = "neutral" ∧
    (analyze_sentiment exC1).1 ≠ labelOfRounded ((analyze_sentiment exC1).2) := by
  refine ⟨by with_unfolding_all rfl, by with_unfolding_all rfl, ?_⟩
  with_unfolding_all decide

/-- C1 (amended): when `p + n > 0` the label is determined by the *unrounded*
binary64 score: above the double 0.2 yields positive, below -0.2 yields
negative, otherwise neutral; the rounded score is only returned, not used
for the label. -/
theorem C1_amended (text : String) (h : posCount text + negCount text ≠ 0) :
    (analyze_sentiment text).1 = labelOfScore (scoreDbl text) := by
  rw [analyze_sentiment_of_ne text h]
  simp only [labelOfScore, scoreDbl]
  have hx : 0 < (scoreF text).2 := toDoubleF_den_pos _ _
  have hy : 0 < dbl02.2 := toDoubleF_den_pos _ _
  by_cases h1 : fgt (scoreF text) dbl02 = true
  · rw [if_pos h1, if_pos ((fgt_iff _ _ hx hy).mp h1)]
  · rw [if_neg h1]
    have h1' : ¬ fracVal dbl02 < fracVal (scoreF text) := by
      intro hc
      exact h1 ((fgt_iff _ _ hx hy).mpr hc)
    rw [if_neg h1']
    by_cases h2 : flt (scoreF text) (-dbl02.1, dbl02.2) = true
    · have h2' := (flt_iff _ _ hx (by simpa using hy)).mp h2
      rw [fracVal_neg_dbl02] at h2'
      rw [if_pos h2, if_pos h2']
    · have h2' : ¬ fracVal (scoreF text) < -fracVal dbl02 := by
        intro hc
        apply h2
        apply (flt_iff _ _ hx (by simpa using hy)).mpr
        rw [fracVal_neg_dbl02]
        exact hc
      rw [if_neg h2, if_neg h2']

/-- Witness for C1 (amended) at the single-word text `"good"`. -/
theorem C1_amended_witness :
    (posCount "good" + negCount "good" ≠ 0) ∧
    (analyze_sentiment "good").1 = labelOfScore (scoreDbl "good") :=
  ⟨by decide, C1_amended "good" (by decide)⟩

/-- C3: a text with zero lexicon hits — empty, punctuation-only,
numbers-only or any text free of lexicon words — yields exactly
`(neutral, 0.0)`, an exact zero that is not produced by the division. -/
theorem C3_zero_hits (text : String) (h : posCount text + negCount text = 0) :
    analyze_sentiment text = ("neutral", 0) :=
  analyze_of_zero_hits text h

/-- Witness for C3 at a lexicon-free text with numbers and punctuation. -/
theorem C3_zero_hits_witness :
    (posCount "The weather today is 42 degrees, okay?!" +
      negCount "The weather today is 42 degrees, okay?!" = 0) ∧
    analyze_sentiment "The weather today is 42 degrees, okay?!" = ("neutral", 0) :=
  ⟨by decide, C3_zero_hits "The weather today is 42 degrees, okay?!" (by decide)⟩

/-- C7 (counterexample): on 41 positive and 39 negative hits the raw score is
exactly 0.025; round-half-to-even over exact rationals gives 0.02, but the
code rounds the binary64 value 0.025000000000000001387… and returns 0.03. -/
theorem C7_counterexample :
    (analyze_sentiment exC7).2 = 3/100 ∧
    roundHalfEven2 (rawScore exC7) = 1/50 ∧
    (analyze_sentiment exC7).2 ≠ roundHalfEven2 (rawScore exC7) := by
  refine ⟨by with_unfolding_all rfl, by with_unfolding_all rfl, ?_⟩
  with_unfolding_all decide

/-- C7 (amended): when `p + n > 0` the returned score is an exact multiple of
1/100 in [-1, 1], obtained from `(p - n) / (p + n)` by the language-default
rounding (binary64 division, then `round(·, 2)` on the double, ties resolved
by the binary representation); it differs from the exact ratio by at most
1/100. -/
theorem C7_score_rounding (text : String)
    (h : posCount text + negCount text ≠ 0) :
    -1 ≤ (analyze_sentiment text).2 ∧ (analyze_sentiment text).2 ≤ 1 ∧
    ∃ k : ℤ, (analyze_sentiment text).2 = (k : ℚ) / 100 ∧
      |(analyze_sentiment text).2 - rawScore text| ≤ 1/100 := by
  obtain ⟨k, hk, h1, h2, h3⟩ := analyze_score_spec text h
  refine ⟨?_, ?_, k, hk, h3⟩
  · rw [hk, le_div_iff (by norm_num : (0 : ℚ) < 100)]
    have : (-100 : ℚ) ≤ (k : ℚ) := by exact_mod_cast h1
    linarith
  · rw [hk, div_le_one (by norm_num : (0 : ℚ) < 100)]
    exact_mod_cast h2

/-- Witness for C7 (amended) at the single-word text `"good"`. -/
theorem C7_score_rounding_witness :
    (posCount "good" + negCount "good" ≠ 0) ∧
    (-1 ≤ (analyze_sentiment "good").2 ∧ (analyze_sentiment "good").2 ≤ 1 ∧
    ∃ k : ℤ, (analyze_sentiment "good").2 = (k : ℚ) / 100 ∧
      |(analyze_sentiment "good").2 - rawScore "good"| ≤ 1/100) :=
  ⟨by decide, C7_score_rounding "good" (by decide)⟩

/-- C8: the scorer is a function of the lowercased token sequence alone, so
any two texts with the same tokens — e.g. `"good, good!"` and `"good good"`
— get the same label and score. -/
theorem C8_token_invariance (s t : String) (h : tokensOf s = tokensOf t) :
    analyze_sentiment s = analyze_sentiment t := by
  have hp : posCount s = posCount t := by rw [posCount, posCount, h]
  have hn : negCount s = negCount t := by rw [negCount, negCount, h]
  by_cases hz : posCount s + negCount s = 0
  · rw [analyze_of_zero_hits s hz, analyze_of_zero_hits t (by omega)]
  · have hz' : posCount t + negCount t ≠ 0 := by omega
    rw [analyze_sentiment_of_ne s hz, analyze_sentiment_of_ne t hz']
    rw [scoreF, scoreF, hp, hn]

/-- Witness for C8 at the spec's own example pair. -/
theorem C8_token_invariance_witness :
    (tokensOf "good, good!" = tokensOf "good good") ∧
    analyze_sentiment "good, good!" = analyze_sentiment "good good" :=
  ⟨by decide, C8_token_invariance "good, good!" "good good" (by decide)⟩

/-- C9: the scorer is total — every string yields a pair whose label is one
of positive/negative/neutral and whose score lies in [-1, 1]; the division
is guarded by the `p + n = 0` check. -/
theorem C9_total (text : String) :
    ((analyze_sentiment text).1 = "positive" ∨ (analyze_sentiment text).1 = "negative" ∨
      (analyze_sentiment text).1 = "neutral") ∧
    -1 ≤ (analyze_sentiment text).2 ∧ (analyze_sentiment text).2 ≤ 1 := by
  by_cases h : posCount text + negCount text = 0
  · rw [analyze_of_zero_hits text h]
    refine ⟨by simp, by norm_num, by norm_num⟩
  · constructor
    · rw [analyze_sentiment_of_ne text h]
      simp only
      split_ifs <;> simp
    · obtain ⟨k, hk, h1, h2, _⟩ := analyze_score_spec text h
      constructor
      · rw [hk, le_div_iff (by norm_num : (0 : ℚ) < 100)]
        have : (-100 : ℚ) ≤ (k : ℚ) := by exact_mod_cast h1
        linarith
      · rw [hk, div_le_one (by norm_num : (0 : ℚ) < 100)]
        exact_mod_cast h2

end SentimentAnalysis
